import Mathlib

/-! ## K-Means executable (`kmeans_main.cpp`)

A shallow embedding of `main` of `src/mlpack/methods/kmeans/kmeans_main.cpp`:
the parsed command line is a record, the file system and the clustering engine
are parameters, and a run is the list of the effects it performs, in order.
-/

namespace mlpack

/-! ## Numbers -/

/-- A C `double`: not-a-number, the two infinities, or a finite value (kept as
the rational it denotes).  Only comparisons and exact conversions are used. -/
inductive Double where
  | NaN
  | NegInf
  | PosInf
  | Finite (q : ℚ)
  deriving DecidableEq

instance : Inhabited Double := ⟨Double.Finite 0⟩

/-- The C comparison `a < b` on doubles: false as soon as one side is NaN. -/
def Double.lt : Double → Double → Bool
  | .Finite a, .Finite b => decide (a < b)
  | .NegInf, .Finite _ => true
  | .NegInf, .PosInf => true
  | .Finite _, .PosInf => true
  | _, _ => false

/-- The C comparison `a >= b` on doubles: false as soon as one side is NaN. -/
def Double.ge : Double → Double → Bool
  | .Finite a, .Finite b => decide (b ≤ a)
  | .Finite _, .NegInf => true
  | .PosInf, .Finite _ => true
  | .PosInf, .NegInf => true
  | .PosInf, .PosInf => true
  | .NegInf, .NegInf => true
  | _, _ => false

/-- A C `int` (32 bits, two's complement). -/
structure CInt where
  val : Int
  lo : -2 ^ 31 ≤ val
  hi : val < 2 ^ 31

/-- The conversion `int -> double` (exact: every `int` is a double). -/
def Double.ofInt (z : Int) : Double := .Finite z

/-- The conversion `int -> size_t` (64 bits): reduction modulo `2^64`. -/
def toSizeT (x : CInt) : Nat := (x.val % 2 ^ 64).toNat

/-- Round a natural number to the nearest integer with a 53-bit significand,
ties to even: the value of `(double) n` for a `size_t n`. -/
def roundToDouble (n : Nat) : Nat :=
  if n < 2 ^ 53 then n
  else
    let e := Nat.log2 n - 52
    let q := n / 2 ^ e
    let r := n % 2 ^ e
    let half := 2 ^ (e - 1)
    if r < half then q * 2 ^ e
    else if half < r then (q + 1) * 2 ^ e
    else if q % 2 = 0 then q * 2 ^ e
    else (q + 1) * 2 ^ e

/-- The cast `(double) n` of a `size_t`. -/
def Double.ofSizeT (n : Nat) : Double := .Finite (roundToDouble n)

/-! ## Matrices (Armadillo) -/

/-- An `arma::Mat`: its dimensions and its entries, `entry r c` for row `r` and
column `c` (meaningful inside the dimensions only). -/
structure Mat (α : Type) where
  n_rows : Nat
  n_cols : Nat
  entry : Nat → Nat → α

/-- The transpose `trans(v)` of a column vector: a matrix of one row. -/
def trans {α : Type} [Inhabited α] (v : List α) : Mat α :=
  ⟨1, v.length, fun _ c => v.getD c default⟩

/-- Armadillo `t.insert_rows(row_num, C)`: the rows of `C` are put before row
`row_num` of `t`.  It raises a logic error (`none`) when `row_num` is out of
bounds or when the column counts differ and neither matrix is empty. -/
def Mat.insert_rows {α : Type} (t : Mat α) (row_num : Nat) (C : Mat α) : Option (Mat α) :=
  if t.n_rows < row_num then none
  else if C.n_cols ≠ t.n_cols ∧ (0 < t.n_rows ∨ 0 < t.n_cols) ∧ (0 < C.n_rows ∨ 0 < C.n_cols) then
    none
  else if 0 < C.n_rows then
    some ⟨t.n_rows + C.n_rows, max t.n_cols C.n_cols, fun r c =>
      if r < row_num then t.entry r c
      else if r < row_num + C.n_rows then C.entry (r - row_num) c
      else t.entry (r - C.n_rows) c⟩
  else some t

/-! ## The command line -/

/-- The parsed command line: the names of the parameters that were given, and
the value of every parameter (its default when it was not given). -/
structure CLI where
  specified : List String
  input_file : String
  clusters : CInt
  output_file : String
  overclustering : Double
  max_iterations : CInt

/-- The names declared by the `PARAM_*` lines (lines 24-36). -/
def declaredParams : List String :=
  ["input_file", "clusters", "in_place", "output_file", "allow_empty_clusters",
   "labels_only", "overclustering", "max_iterations"]

/-- The query `CLI::HasParam(key)`: was `key` given on the command line. -/
def CLI.HasParam (cli : CLI) (key : String) : Bool := cli.specified.contains key

/-! ## The engine's empty-cluster policies -/

/-- What the engine does with a cluster that has become empty.
* `Repair`: the default of `KMeans<>`; by `PROGRAM_INFO` (lines 20-22) the point
  furthest from the centroid of the cluster with maximum variance fills it.
* `AllowEmptyClusters`: the policy named at line 85; by the help text of the
  flag (line 30) empty clusters are allowed to be created.
* `Reject`: the policy of the specification under which the run fails; `main`
  has no way to name it. -/
inductive EmptyClusterPolicy where
  | Repair
  | AllowEmptyClusters
  | Reject
  deriving DecidableEq

/-! ## Effects of a run -/

/-- The four fatal messages of `main`, with the value each one prints. -/
inductive FatalError where
  | clusters (v : Int)
  | max_iterations (v : Int)
  | overclustering (v : Double)
  | output_file
  deriving DecidableEq

/-- What `data::Save` is given: an `arma::mat` or an `arma::Mat<size_t>`. -/
inductive Saved where
  | mat (m : Mat Double)
  | umat (m : Mat Nat)

/-- One call of `KMeans::Cluster`: the policy and the constructor arguments of
the engine, and the dataset and cluster count it is called on. -/
structure ClusterCall where
  policy : EmptyClusterPolicy
  maxIterations : Nat
  overclusteringFactor : Double
  dataset : Mat Double
  clusters : Nat

/-- An observable step of a run of `main`. -/
inductive Event where
  | Fatal (e : FatalError)
  | Load (file : String)
  | Cluster (call : ClusterCall)
  | Save (file : String) (m : Saved)
  | LogicError

/-- Modelled from the spec: `Log::Fatal` (mlpack core, not among the sources)
raises a fatal startup error, which ends the run: nothing after it is executed. -/
def Log.Fatal (e : FatalError) : List Event := [Event.Fatal e]

/-- The collaborators of `main`: `data::Load` (the matrix read from a file) and
`KMeans::Cluster` (the assignments it writes into its third argument). -/
structure Env where
  Load : String → Mat Double
  Cluster : ClusterCall → List Nat

/-- The policy of the `KMeans` object `main` creates (lines 82-94). -/
def selectedPolicy (cli : CLI) : EmptyClusterPolicy :=
  if cli.HasParam "allow_empty_clusters" then EmptyClusterPolicy.AllowEmptyClusters
  else EmptyClusterPolicy.Repair

/-- The call of `Cluster` that `main` makes (lines 81-94). -/
def clusterCall (env : Env) (cli : CLI) : ClusterCall :=
  ⟨selectedPolicy cli, toSizeT cli.max_iterations, cli.overclustering,
   env.Load cli.input_file, toSizeT cli.clusters⟩

/-- Lines 101-105 and 122-126: the assignments, converted to doubles, are
inserted as a last row of the dataset. -/
def appendAssignments (dataset : Mat Double) (assignments : List Nat) : Option (Mat Double) :=
  let converted := assignments.map Double.ofSizeT
  dataset.insert_rows dataset.n_rows (trans converted)

/-- Lines 96-132: what is done with the result. -/
def writeResults (cli : CLI) (dataset : Mat Double) (assignments : List Nat) : List Event :=
  if cli.HasParam "in_place" then
    match appendAssignments dataset assignments with
    | some d => [Event.Save cli.input_file (Saved.mat d)]
    | none => [Event.LogicError]
  else
    if cli.HasParam "only_labels" then
      [Event.Save cli.output_file (Saved.umat (trans assignments))]
    else
      match appendAssignments dataset assignments with
      | some d => [Event.Save cli.output_file (Saved.mat d)]
      | none => [Event.LogicError]

/-- The function `main` (lines 38-133), after `CLI::ParseCommandLine`. -/
def main (env : Env) (cli : CLI) : List Event :=
  if cli.clusters.val < 1 then Log.Fatal (FatalError.clusters cli.clusters.val)
  else if cli.max_iterations.val < 0 then
    Log.Fatal (FatalError.max_iterations cli.max_iterations.val)
  else if Double.lt cli.overclustering (Double.ofInt 1) then
    Log.Fatal (FatalError.overclustering cli.overclustering)
  else if (!cli.HasParam "in_place" && !cli.HasParam "output_file") then
    Log.Fatal FatalError.output_file
  else
    let dataset := env.Load cli.input_file
    let call := clusterCall env cli
    let assignments := env.Cluster call
    [Event.Load cli.input_file, Event.Cluster call] ++ writeResults cli dataset assignments

/-! ## Observations on a run -/

/-- The fatal errors of a run. -/
def fatals : List Event → List FatalError
  | [] => []
  | Event.Fatal e :: t => e :: fatals t
  | _ :: t => fatals t

/-- The files loaded in a run. -/
def loads : List Event → List String
  | [] => []
  | Event.Load f :: t => f :: loads t
  | _ :: t => loads t

/-- The calls of the engine in a run. -/
def clusterCalls : List Event → List ClusterCall
  | [] => []
  | Event.Cluster c :: t => c :: clusterCalls t
  | _ :: t => clusterCalls t

/-- The saves of a run: target file and matrix. -/
def saves : List Event → List (String × Saved)
  | [] => []
  | Event.Save f m :: t => (f, m) :: saves t
  | _ :: t => saves t

/-- The events of a run before its first call of the engine. -/
def beforeCluster : List Event → List Event
  | [] => []
  | Event.Cluster _ :: _ => []
  | e :: t => e :: beforeCluster t

/-- The parameter values the executable documents as valid: `clusters >= 1`,
`max_iterations >= 0` and `overclustering >= 1.0`. -/
def Valid (cli : CLI) : Prop :=
  1 ≤ cli.clusters.val ∧ 0 ≤ cli.max_iterations.val ∧
    Double.ge cli.overclustering (Double.ofInt 1) = true

/-! ## Concrete runs -/

/-- The `int` 2. -/
def two : CInt := ⟨2, by decide, by decide⟩

/-- The `int` 1000, the default of `max_iterations`. -/
def thousand : CInt := ⟨1000, by decide, by decide⟩

/-- A dataset of two points on a line: the 1 x 2 matrix `(0 10)`. -/
def twoPoints : Mat Double :=
  ⟨1, 2, fun _ c => if c = 0 then Double.Finite 0 else Double.Finite 10⟩

/-- An environment whose file holds `twoPoints` and whose engine puts the two
points into clusters 0 and 1. -/
def env0 : Env := ⟨fun _ => twoPoints, fun _ => [0, 1]⟩

/-- The command line
`--input_file in.csv --clusters 2 --output_file out.csv --overclustering nan`. -/
def cliNaN : CLI :=
  ⟨["input_file", "clusters", "output_file", "overclustering"], "in.csv", two, "out.csv",
   Double.NaN, thousand⟩

/-- The command line
`--input_file in.csv --clusters 2 --output_file out.csv --labels_only`. -/
def cliLabels : CLI :=
  ⟨["input_file", "clusters", "output_file", "labels_only"], "in.csv", two, "out.csv",
   Double.Finite 1, thousand⟩

/-- The command line `--input_file in.csv --clusters 2 --in_place`. -/
def cliInPlace : CLI :=
  ⟨["input_file", "clusters", "in_place"], "in.csv", two, "", Double.Finite 1, thousand⟩

/-- The command line
`--input_file in.csv --clusters 2 --output_file out.csv --allow_empty_clusters`. -/
def cliAllow : CLI :=
  ⟨["input_file", "clusters", "output_file", "allow_empty_clusters"], "in.csv", two, "out.csv",
   Double.Finite 1, thousand⟩

/-- The command line `--input_file in.csv --clusters 2` (no output destination). -/
def cliNoOutput : CLI :=
  ⟨["input_file", "clusters"], "in.csv", two, "", Double.Finite 1, thousand⟩

/-- Modelled from the spec: a point of the `PointSet` of the missing engine, a
vector of real coordinates (section 3). -/
abbrev Point := List ℚ

/-- Modelled from the spec: the errors the missing engine signals (section 7). -/
inductive EngineError where
  | InvalidArgument
  | InvalidClusterCount
  | EmptyClusterError
  | RepairFailed
  | InvalidOverclusteringFactor
  deriving DecidableEq

/-- Modelled from the spec: the terminal states of the missing engine's iteration
(section 4.2). -/
inductive LloydState where
  | Converged
  | MaxIterationsReached
  deriving DecidableEq

/-- Modelled from the spec: the default `DistanceMetric` of the missing engine,
the squared Euclidean distance between a point and a centroid. -/
def SquaredEuclideanDistance (a b : Point) : ℚ :=
  (List.zipWith (fun x y => (x - y) * (x - y)) a b).sum

/-- Modelled from the spec: the selection rule shared by the missing engine's
argmin and argmax steps.  The first element of the list is kept until a later
one is strictly better, so ties go to the earliest candidate. -/
def selectBest {α : Type} (better : α → α → Bool) : List α → Option α
  | [] => none
  | x :: xs => some (xs.foldl (fun best y => if better y best then y else best) x)

/-- Modelled from the spec: the members of cluster `c` in the missing engine's
`Assignment` (one cluster index per point, in the order of the points). -/
def members (points : List Point) (a : List Nat) (c : Nat) : List Point :=
  ((points.zip a).filter (fun pa => pa.2 == c)).map Prod.fst

/-- Modelled from the spec: the arithmetic mean, component-wise, of the points
assigned to a cluster of the missing engine (section 4.2, step 1). -/
def mean : List Point → Point
  | [] => []
  | p :: ps =>
    (ps.foldl (fun s q => List.zipWith (fun x y => x + y) s q) p).map
      (fun x => x / ((ps.length + 1 : Nat) : ℚ))

/-- Modelled from the spec: `PartitionStrategy` of the missing engine (section
4.1), the random default: every point gets a cluster index in `[0, K)` drawn
from the random source `rnd`; `InvalidClusterCount` when `K < 1` or `K > N`. -/
def RandomPartition (rnd : Nat → Nat) (N K : Nat) : Except EngineError (List Nat) :=
  if K < 1 ∨ N < K then Except.error EngineError.InvalidClusterCount
  else Except.ok ((List.range N).map (fun i => rnd i % K))

/-- Modelled from the spec: step 1 of a round of the missing `LloydIterator`:
every centroid becomes the mean of its assigned points; the centroid of an
empty cluster is left unchanged. -/
def recomputeCentroids (points : List Point) (a : List Nat) (centroids : List Point) :
    List Point :=
  (List.range centroids.length).map (fun c =>
    if (members points a c).isEmpty then centroids.getD c []
    else mean (members points a c))

/-- Modelled from the spec: the variance of a cluster of the missing engine, the
sum of the squared distances of its members to its own centroid. -/
def variance (points : List Point) (a : List Nat) (centroids : List Point) (c : Nat) : ℚ :=
  ((members points a c).map (fun p => SquaredEuclideanDistance p (centroids.getD c []))).sum

/-- Modelled from the spec: the cluster with maximum variance (missing engine,
section 4.2 step 2); the lowest index among equal variances. -/
def maxVarianceCluster (points : List Point) (a : List Nat) (centroids : List Point) :
    Option Nat :=
  selectBest (fun c best => decide (variance points a centroids best
    < variance points a centroids c)) (List.range centroids.length)

/-- Modelled from the spec: the index of the point of cluster `c` with the
greatest distance to `centroid` (missing engine, section 4.2 step 2); the
lowest point index among equal distances, `none` when the cluster is empty. -/
def furthestPoint (points : List Point) (a : List Nat) (centroid : Point) (c : Nat) :
    Option Nat :=
  selectBest (fun i best => decide (SquaredEuclideanDistance (points.getD best []) centroid
    < SquaredEuclideanDistance (points.getD i []) centroid))
    ((List.range points.length).filter (fun i => a.getD i c.succ == c))

/-- Modelled from the spec: the repair policy of the missing engine on the
empty cluster `e`: the point furthest from the centroid of the cluster with
maximum variance is reassigned to `e`, whose centroid is then recomputed;
`RepairFailed` when `e` is still empty afterwards. -/
def repairCluster (points : List Point) (a : List Nat) (centroids : List Point) (e : Nat) :
    Except EngineError (List Nat × List Point) :=
  match maxVarianceCluster points a centroids with
  | none => Except.error EngineError.RepairFailed
  | some v =>
    match furthestPoint points a (centroids.getD v []) v with
    | none => Except.error EngineError.RepairFailed
    | some i =>
      if (members points (a.set i e) e).isEmpty then Except.error EngineError.RepairFailed
      else Except.ok (a.set i e, centroids.set e (mean (members points (a.set i e) e)))

/-- Modelled from the spec: step 2 of a round of the missing `LloydIterator`,
over the clusters `cs` in turn: an empty cluster fails the run under `Reject`,
is repaired under `Repair`, and is left as it is under `AllowEmptyClusters`. -/
def handleEmptyClusters (policy : EmptyClusterPolicy) (points : List Point) :
    List Nat → List Nat × List Point → Except EngineError (List Nat × List Point)
  | [], st => Except.ok st
  | c :: cs, st =>
    if (members points st.1 c).isEmpty then
      match policy with
      | EmptyClusterPolicy.Reject => Except.error EngineError.EmptyClusterError
      | EmptyClusterPolicy.AllowEmptyClusters => handleEmptyClusters policy points cs st
      | EmptyClusterPolicy.Repair =>
        match repairCluster points st.1 st.2 c with
        | Except.error err => Except.error err
        | Except.ok st1 => handleEmptyClusters policy points cs st1
    else handleEmptyClusters policy points cs st

/-- Modelled from the spec: the cluster whose centroid is nearest to `p`
(missing engine, section 4.2 step 3); the lowest cluster index on ties. -/
def nearestCluster (centroids : List Point) (p : Point) : Nat :=
  (selectBest (fun c best => decide (SquaredEuclideanDistance p (centroids.getD c [])
    < SquaredEuclideanDistance p (centroids.getD best [])))
    (List.range centroids.length)).getD 0

/-- Modelled from the spec: the convergence loop of the missing engine (section
4.2).  Each round recomputes the centroids, handles the empty clusters,
reassigns every point to its nearest centroid, and stops as `Converged` when no
point changed cluster; after `maxIterations` rounds the last assignment is
returned as `MaxIterationsReached`. -/
def LloydIterator (policy : EmptyClusterPolicy) (points : List Point) :
    Nat → List Nat × List Point → Except EngineError (LloydState × List Nat × List Point)
  | 0, st => Except.ok (LloydState.MaxIterationsReached, st)
  | n + 1, st =>
    match handleEmptyClusters policy points (List.range st.2.length)
        (st.1, recomputeCentroids points st.1 st.2) with
    | Except.error err => Except.error err
    | Except.ok st1 =>
      if points.map (nearestCluster st1.2) = st.1 then
        Except.ok (LloydState.Converged, points.map (nearestCluster st1.2), st1.2)
      else LloydIterator policy points n (points.map (nearestCluster st1.2), st1.2)

/-- Modelled from the spec: the pairs of clusters `i < j` among `k` clusters of
the missing `OverclusterMerger`. -/
def clusterPairs (k : Nat) : List (Nat × Nat) :=
  (List.range k).flatMap (fun i => ((List.range k).filter (fun j => i < j)).map (fun j => (i, j)))

/-- Modelled from the spec: the pair of clusters the missing `OverclusterMerger`
merges next (section 4.3): minimum distance between the centroids, and among
equal distances the lower sum of the two indices. -/
def closestPair (centroids : List Point) : Option (Nat × Nat) :=
  selectBest (fun p best =>
    let dp := SquaredEuclideanDistance (centroids.getD p.1 []) (centroids.getD p.2 [])
    let db := SquaredEuclideanDistance (centroids.getD best.1 []) (centroids.getD best.2 [])
    decide (dp < db ∨ (dp = db ∧ p.1 + p.2 < best.1 + best.2)))
    (clusterPairs centroids.length)

/-- Modelled from the spec: one merge of the missing `OverclusterMerger`
(section 4.3).  The members of `j` join the surviving lower index `i`, whose
centroid becomes the mean of the two weighted by member count; centroid `j` is
removed and the indices above it move down by one, so that the indices stay in
`[0, currentK)` and the centroid count equals `currentK` (section 3). -/
def mergeClusters (points : List Point) (a : List Nat) (centroids : List Point) (i j : Nat) :
    List Nat × List Point :=
  let ni := (members points a i).length
  let nj := (members points a j).length
  let merged :=
    if ni + nj = 0 then centroids.getD i []
    else List.zipWith (fun x y => ((ni : ℚ) * x + (nj : ℚ) * y) / ((ni + nj : Nat) : ℚ))
      (centroids.getD i []) (centroids.getD j [])
  (a.map (fun c => if c = j then i else if j < c then c - 1 else c),
   (centroids.set i merged).eraseIdx j)

/-- Modelled from the spec: the missing `OverclusterMerger` (section 4.3): the
two closest clusters are merged, `merges` times or until `K` clusters remain. -/
def OverclusterMerger (points : List Point) (K : Nat) :
    Nat → List Nat × List Point → List Nat × List Point
  | 0, st => st
  | merges + 1, st =>
    if st.2.length ≤ K then st
    else
      match closestPair st.2 with
      | none => st
      | some (i, j) => OverclusterMerger points K merges (mergeClusters points st.1 st.2 i j)

/-- Modelled from the spec: the inflated cluster count of the missing engine
(section 4.4): `K` itself for a factor of 1, else `round(K * factor)` (halves
away from zero), and never less than `K`. -/
def overclusterCount (K : Nat) (overclusterFactor : ℚ) : Nat :=
  if overclusterFactor = 1 then K
  else max K (Int.toNat ⌊(K : ℚ) * overclusterFactor + 1 / 2⌋)

/-- Modelled from the spec: the centroids of the missing engine before its first
round, which the specification does not give: `k` points at the origin, of the
dimension of the first data point. -/
def initialCentroids (points : List Point) (k : Nat) : List Point :=
  List.replicate k (List.replicate (points.headD []).length 0)

/-- Modelled from the spec: the facade `Cluster` of the missing `ClusterEngine`
(section 4.4).  It validates its arguments (`InvalidArgument`), partitions the
points over the inflated count, runs the iteration with the given policy, and
merges down to `K` clusters when the factor is not 1. -/
def Cluster (policy : EmptyClusterPolicy) (rnd : Nat → Nat) (points : List Point) (K : Int)
    (maxIterations : Int) (overclusterFactor : ℚ) : Except EngineError (List Nat) :=
  if K < 1 ∨ maxIterations < 0 ∨ overclusterFactor < 1 then
    Except.error EngineError.InvalidArgument
  else if overclusterCount K.toNat overclusterFactor < K.toNat then
    Except.error EngineError.InvalidOverclusteringFactor
  else
    match RandomPartition rnd points.length (overclusterCount K.toNat overclusterFactor) with
    | Except.error err => Except.error err
    | Except.ok a0 =>
      match LloydIterator policy points maxIterations.toNat
          (a0, initialCentroids points (overclusterCount K.toNat overclusterFactor)) with
      | Except.error err => Except.error err
      | Except.ok (_, a, centroids) =>
        if overclusterFactor = 1 then Except.ok a
        else Except.ok (OverclusterMerger points K.toNat
          (overclusterCount K.toNat overclusterFactor - K.toNat) (a, centroids)).1

/-! ## Properties of the engine state -/

/-- The invariant of section 3: one cluster index per point, every index below
the current cluster count, and one centroid per cluster. -/
def EngineInv (N k : Nat) (st : List Nat × List Point) : Prop :=
  st.1.length = N ∧ (∀ x ∈ st.1, x < k) ∧ st.2.length = k

/-- The only errors of step 2: `EmptyClusterError` under `Reject`, and
`RepairFailed` under `Repair`. -/
def PolicyError (policy : EmptyClusterPolicy) (err : EngineError) : Prop :=
  (err = EngineError.EmptyClusterError ∧ policy = EmptyClusterPolicy.Reject) ∨
  (err = EngineError.RepairFailed ∧ policy = EmptyClusterPolicy.Repair)

/-! ## Concrete engine inputs -/

/-- Two points on a line, at 1 and 2. -/
def linePoints : List Point := [[1], [2]]

/-- Four points on a line, at 0, 1, 10 and 11. -/
def fourPoints : List Point := [[0], [1], [10], [11]]

/-- A random source that always draws 0. -/
def rndZero : Nat → Nat := fun _ => 0

/-- A random source that draws 0, 1, 2, 3, ... in turn. -/
def rndCount : Nat → Nat := fun i => i

/-! ## Lemmas on `main` -/

theorem Double.lt_false_of_ge {x y : Double} (h : Double.ge x y = true) :
    Double.lt x y = false := by
  cases x <;> cases y <;> simp_all [Double.ge, Double.lt]

theorem fatals_writeResults (cli : CLI) (d : Mat Double) (a : List Nat) :
    fatals (writeResults cli d a) = [] := by
  unfold writeResults
  split
  · split <;> rfl
  · split
    · rfl
    · split <;> rfl

theorem loads_writeResults (cli : CLI) (d : Mat Double) (a : List Nat) :
    loads (writeResults cli d a) = [] := by
  unfold writeResults
  split
  · split <;> rfl
  · split
    · rfl
    · split <;> rfl

theorem clusterCalls_writeResults (cli : CLI) (d : Mat Double) (a : List Nat) :
    clusterCalls (writeResults cli d a) = [] := by
  unfold writeResults
  split
  · split <;> rfl
  · split
    · rfl
    · split <;> rfl

/-- Validation, as `main` performs it (lines 48-73). -/
theorem main_eq_of_checks (env : Env) (cli : CLI)
    (h1 : ¬ cli.clusters.val < 1) (h2 : ¬ cli.max_iterations.val < 0)
    (h3 : Double.lt cli.overclustering (Double.ofInt 1) = false)
    (h4 : (!cli.HasParam "in_place" && !cli.HasParam "output_file") = false) :
    main env cli =
      [Event.Load cli.input_file, Event.Cluster (clusterCall env cli)] ++
        writeResults cli (env.Load cli.input_file) (env.Cluster (clusterCall env cli)) := by
  unfold main
  rw [if_neg h1, if_neg h2, h3, h4]
  rfl

/-- A run is a single fatal error, or it passed the four checks. -/
theorem main_cases (env : Env) (cli : CLI) :
    (∃ e, main env cli = [Event.Fatal e]) ∨
    ((¬ cli.clusters.val < 1) ∧ (¬ cli.max_iterations.val < 0) ∧
      Double.lt cli.overclustering (Double.ofInt 1) = false ∧
      (!cli.HasParam "in_place" && !cli.HasParam "output_file") = false) := by
  by_cases h1 : cli.clusters.val < 1
  · left; exact ⟨_, by unfold main; rw [if_pos h1]; rfl⟩
  by_cases h2 : cli.max_iterations.val < 0
  · left; exact ⟨_, by unfold main; rw [if_neg h1, if_pos h2]; rfl⟩
  cases h3 : Double.lt cli.overclustering (Double.ofInt 1)
  · cases h4 : (!cli.HasParam "in_place" && !cli.HasParam "output_file")
    · right; exact ⟨h1, h2, rfl, rfl⟩
    · left; exact ⟨_, by unfold main; rw [if_neg h1, if_neg h2, h3, h4]; rfl⟩
  · left; exact ⟨_, by unfold main; rw [if_neg h1, if_neg h2, h3]; rfl⟩

/-- A run without a fatal error passed the four checks. -/
theorem checks_of_no_fatal (env : Env) (cli : CLI) (h : fatals (main env cli) = []) :
    (¬ cli.clusters.val < 1) ∧ (¬ cli.max_iterations.val < 0) ∧
      Double.lt cli.overclustering (Double.ofInt 1) = false ∧
      (!cli.HasParam "in_place" && !cli.HasParam "output_file") = false := by
  rcases main_cases env cli with ⟨e, he⟩ | h'
  · rw [he] at h; simp [fatals] at h
  · exact h'

/-- An invalid cluster count, iteration cap or (non-NaN) overclustering factor
ends the run in a fatal error, with nothing loaded, clustered or saved. -/
theorem main_fatal_of_invalid (env : Env) (cli : CLI)
    (h : cli.clusters.val < 1 ∨ cli.max_iterations.val < 0 ∨
      Double.lt cli.overclustering (Double.ofInt 1) = true) :
    ∃ e, main env cli = [Event.Fatal e] := by
  rcases main_cases env cli with he | ⟨h1, h2, h3, _⟩
  · exact he
  · rcases h with h | h | h
    · exact absurd h h1
    · exact absurd h h2
    · rw [h3] at h; cases h

theorem roundToDouble_exact {n : Nat} (h : n < 2 ^ 53) : roundToDouble n = n := by
  unfold roundToDouble
  rw [if_pos h]

/-- The matrix built at lines 101-105 (and 122-126) when the engine returned one
label per column of the dataset. -/
theorem appendAssignments_spec (d : Mat Double) (a : List Nat) (hlen : a.length = d.n_cols) :
    ∃ m, appendAssignments d a = some m ∧ m.n_rows = d.n_rows + 1 ∧ m.n_cols = d.n_cols ∧
      (∀ r c, r < d.n_rows → m.entry r c = d.entry r c) ∧
      (∀ i x, a[i]? = some x → m.entry d.n_rows i = Double.ofSizeT x) := by
  refine ⟨⟨d.n_rows + 1, max d.n_cols a.length, fun r c =>
      if r < d.n_rows then d.entry r c
      else if r < d.n_rows + 1 then ((a.map Double.ofSizeT).getD c default)
      else d.entry (r - 1) c⟩, ?_, rfl, ?_, ?_, ?_⟩
  · simp [appendAssignments, Mat.insert_rows, trans, hlen]
  · simp [hlen]
  · intro r c hr
    simp [hr]
  · intro i x hx
    simp [List.getD, hx]

/-- Giving `labels_only` changes nothing in a run: line 112 asks for a parameter
named `only_labels`. -/
theorem labels_only_flag_ignored (env : Env) (cli : CLI) :
    main env { cli with specified := "labels_only" :: cli.specified } = main env cli := by
  have h : ∀ key : String, (key == "labels_only") = false →
      CLI.HasParam { cli with specified := "labels_only" :: cli.specified } key
        = cli.HasParam key := by
    intro key hk
    have hne : key ≠ "labels_only" := by simpa using hk
    simp [CLI.HasParam, List.contains_cons, hne]
  have h1 := h "in_place" (by decide)
  have h2 := h "output_file" (by decide)
  have h3 := h "allow_empty_clusters" (by decide)
  have h4 := h "only_labels" (by decide)
  simp only [main, writeResults, clusterCall, selectedPolicy, h1, h2, h3, h4]

/-! ## The claims on `main` -/

/-- C1, evaluated at the failing input `--overclustering nan`: the factor does
not satisfy `overclustering >= 1.0`, and yet the run raises no fatal error, calls
the engine once and saves to the output file. -/
theorem nan_overclustering_reaches_engine :
    Double.ge cliNaN.overclustering (Double.ofInt 1) = false ∧
    fatals (main env0 cliNaN) = [] ∧
    (clusterCalls (main env0 cliNaN)).length = 1 ∧
    (saves (main env0 cliNaN)).map Prod.fst = ["out.csv"] := by
  decide

/-- C2: when neither `in_place` nor `output_file` is given, the run is a single
fatal error: nothing is loaded, the engine is not called and nothing is saved;
with valid parameters the error is the one about the missing output file. -/
theorem no_output_destination_is_fatal (env : Env) (cli : CLI)
    (hin : cli.HasParam "in_place" = false) (hout : cli.HasParam "output_file" = false) :
    (∃ e, main env cli = [Event.Fatal e]) ∧ loads (main env cli) = [] ∧
      clusterCalls (main env cli) = [] ∧ saves (main env cli) = [] ∧
      (Valid cli → main env cli = [Event.Fatal FatalError.output_file]) := by
  have hf : ∃ e, main env cli = [Event.Fatal e] := by
    rcases main_cases env cli with he | ⟨_, _, _, h4⟩
    · exact he
    · rw [hin, hout] at h4; cases h4
  obtain ⟨e, he⟩ := hf
  refine ⟨⟨e, he⟩, by rw [he]; rfl, by rw [he]; rfl, by rw [he]; rfl, ?_⟩
  rintro ⟨v1, v2, v3⟩
  unfold main
  rw [if_neg (by omega), if_neg (by omega), Double.lt_false_of_ge v3, hin, hout]
  rfl

theorem no_output_destination_is_fatal_witness :
    cliNoOutput.HasParam "in_place" = false ∧ cliNoOutput.HasParam "output_file" = false ∧
      main env0 cliNoOutput = [Event.Fatal FatalError.output_file] :=
  ⟨by decide, by decide,
    (no_output_destination_is_fatal env0 cliNoOutput (by decide) (by decide)).2.2.2.2
      ⟨by decide, by decide, by decide⟩⟩

/-- C3: in every run that reaches the engine, the engine is called once, and its
empty-cluster policy is the repair policy exactly when the flag
`allow_empty_clusters` is absent. -/
theorem repair_policy_iff_flag_absent (env : Env) (cli : CLI)
    (h : fatals (main env cli) = []) :
    ∃ call, clusterCalls (main env cli) = [call] ∧
      (call.policy = EmptyClusterPolicy.Repair ↔ cli.HasParam "allow_empty_clusters" = false) := by
  obtain ⟨h1, h2, h3, h4⟩ := checks_of_no_fatal env cli h
  refine ⟨clusterCall env cli, ?_, ?_⟩
  · rw [main_eq_of_checks env cli h1 h2 h3 h4]
    simp [clusterCalls, clusterCalls_writeResults]
  · simp only [clusterCall, selectedPolicy]
    cases cli.HasParam "allow_empty_clusters" <;> simp

theorem repair_policy_iff_flag_absent_witness :
    fatals (main env0 cliInPlace) = [] ∧
      ∃ call, clusterCalls (main env0 cliInPlace) = [call] ∧
        (call.policy = EmptyClusterPolicy.Repair ↔
          cliInPlace.HasParam "allow_empty_clusters" = false) :=
  ⟨by decide, repair_policy_iff_flag_absent env0 cliInPlace (by decide)⟩

/-- C5: in a run that passes validation with `in_place` set, on a loaded D x N
dataset and an engine result of length N, the one matrix saved is (D+1) x N; its
first D rows are the loaded dataset entry for entry, and its last row holds at
position i the cast `(double) assignments(i)`, which is the number
`assignments(i)` itself for every value below 2^53. -/
theorem in_place_saves_dataset_with_labels (env : Env) (cli : CLI)
    (hpass : fatals (main env cli) = []) (hin : cli.HasParam "in_place" = true)
    (hlen : (env.Cluster (clusterCall env cli)).length = (env.Load cli.input_file).n_cols) :
    ∃ m, saves (main env cli) = [(cli.input_file, Saved.mat m)] ∧
      m.n_rows = (env.Load cli.input_file).n_rows + 1 ∧
      m.n_cols = (env.Load cli.input_file).n_cols ∧
      (∀ r c, r < (env.Load cli.input_file).n_rows → c < (env.Load cli.input_file).n_cols →
        m.entry r c = (env.Load cli.input_file).entry r c) ∧
      (∀ i x, (env.Cluster (clusterCall env cli))[i]? = some x →
        m.entry (env.Load cli.input_file).n_rows i = Double.ofSizeT x ∧
        (x < 2 ^ 53 → m.entry (env.Load cli.input_file).n_rows i = Double.Finite x)) := by
  obtain ⟨h1, h2, h3, h4⟩ := checks_of_no_fatal env cli hpass
  obtain ⟨m, hm, hr, hc, hd, ha⟩ := appendAssignments_spec _ _ hlen
  refine ⟨m, ?_, hr, hc, fun r c hr' _ => hd r c hr', ?_⟩
  · rw [main_eq_of_checks env cli h1 h2 h3 h4]
    simp [saves, writeResults, hin, hm]
  · intro i x hx
    refine ⟨ha i x hx, fun hlt => ?_⟩
    rw [ha i x hx, Double.ofSizeT, roundToDouble_exact hlt]

theorem in_place_saves_dataset_with_labels_witness :
    fatals (main env0 cliInPlace) = [] ∧ cliInPlace.HasParam "in_place" = true ∧
      ∃ m, saves (main env0 cliInPlace) = [("in.csv", Saved.mat m)] ∧
        m.n_rows = 2 ∧ m.n_cols = 2 ∧
        (∀ r c, r < 1 → c < 2 → m.entry r c = twoPoints.entry r c) ∧
        (∀ i x, [0, 1][i]? = some x →
          m.entry 1 i = Double.ofSizeT x ∧ (x < 2 ^ 53 → m.entry 1 i = Double.Finite x)) :=
  ⟨by decide, by decide,
    in_place_saves_dataset_with_labels env0 cliInPlace (by decide) (by decide) (by decide)⟩

/-- C6, evaluated at the failing input `--output_file out.csv --labels_only`
(no `in_place`): the flag is given (line 112 asks for `only_labels`, which is
not a declared parameter), and the matrix saved to the output file is
the 2 x 2 matrix made of the dataset's row of coordinates `(0 10)` followed by
the row of labels `(0 1)`, not the labels alone. -/
theorem labels_only_saves_coordinates :
    "labels_only" ∈ declaredParams ∧ "only_labels" ∉ declaredParams ∧
    cliLabels.HasParam "labels_only" = true ∧ cliLabels.HasParam "in_place" = false ∧
    fatals (main env0 cliLabels) = [] ∧
    ∃ m, saves (main env0 cliLabels) = [("out.csv", Saved.mat m)] ∧
      m.n_rows = 2 ∧ m.n_cols = 2 ∧
      m.entry 0 0 = Double.Finite 0 ∧ m.entry 0 1 = Double.Finite 10 ∧
      m.entry 1 0 = Double.Finite 0 ∧ m.entry 1 1 = Double.Finite 1 := by
  refine ⟨by decide, by decide, by decide, by decide, by decide, ?_⟩
  obtain ⟨m, hm, hr, hc, hd, ha⟩ :=
    appendAssignments_spec twoPoints [0, 1] (by decide)
  refine ⟨m, ?_, hr, hc, hd 0 0 (by decide), hd 0 1 (by decide), ?_, ?_⟩
  · have h := main_eq_of_checks env0 cliLabels (by decide) (by decide) (by decide) (by decide)
    rw [h]
    have hi : cliLabels.HasParam "in_place" = false := by decide
    have ho : cliLabels.HasParam "only_labels" = false := by decide
    have hm' : appendAssignments (env0.Load cliLabels.input_file)
        (env0.Cluster (clusterCall env0 cliLabels)) = some m := hm
    simp only [writeResults, hi, ho, hm']
    rfl
  · exact ha 0 0 rfl
  · exact ha 1 1 rfl

theorem toSizeT_of_nonneg (x : CInt) (h : 0 ≤ x.val) : (toSizeT x : Int) = x.val := by
  have hi := x.hi
  unfold toSizeT
  rw [Int.emod_eq_of_lt h (by omega)]
  exact Int.toNat_of_nonneg h

/-- C10: with `clusters >= 1`, `max_iterations >= 0`, `overclustering >= 1.0` and
an output destination, the run raises no fatal error, loads the input file and
then calls the engine exactly once, on the loaded dataset, with the parsed
cluster count, iteration cap and overclustering factor unchanged, whichever
policy the flag `allow_empty_clusters` selects. -/
theorem valid_run_calls_engine_once (env : Env) (cli : CLI) (hv : Valid cli)
    (hdest : cli.HasParam "in_place" = true ∨ cli.HasParam "output_file" = true) :
    fatals (main env cli) = [] ∧ beforeCluster (main env cli) = [Event.Load cli.input_file] ∧
    ∃ call, clusterCalls (main env cli) = [call] ∧
      call.dataset = env.Load cli.input_file ∧
      (call.clusters : Int) = cli.clusters.val ∧
      (call.maxIterations : Int) = cli.max_iterations.val ∧
      call.overclusteringFactor = cli.overclustering ∧
      call.policy = (if cli.HasParam "allow_empty_clusters" = true
        then EmptyClusterPolicy.AllowEmptyClusters else EmptyClusterPolicy.Repair) := by
  obtain ⟨v1, v2, v3⟩ := hv
  have h4 : (!cli.HasParam "in_place" && !cli.HasParam "output_file") = false := by
    rcases hdest with h | h <;> simp [h]
  have hmain := main_eq_of_checks env cli (by omega) (by omega) (Double.lt_false_of_ge v3) h4
  refine ⟨?_, ?_, clusterCall env cli, ?_, rfl, toSizeT_of_nonneg _ (by omega),
    toSizeT_of_nonneg _ v2, rfl, ?_⟩
  · rw [hmain]; simp [fatals, fatals_writeResults]
  · rw [hmain]; rfl
  · rw [hmain]; simp [clusterCalls, clusterCalls_writeResults]
  · simp only [clusterCall, selectedPolicy]

theorem valid_run_calls_engine_once_witness :
    Valid cliAllow ∧ cliAllow.HasParam "output_file" = true ∧
    fatals (main env0 cliAllow) = [] ∧
    beforeCluster (main env0 cliAllow) = [Event.Load "in.csv"] ∧
    ∃ call, clusterCalls (main env0 cliAllow) = [call] ∧
      call.dataset = env0.Load "in.csv" ∧
      (call.clusters : Int) = 2 ∧
      (call.maxIterations : Int) = 1000 ∧
      call.overclusteringFactor = Double.Finite 1 ∧
      call.policy = (if cliAllow.HasParam "allow_empty_clusters" = true
        then EmptyClusterPolicy.AllowEmptyClusters else EmptyClusterPolicy.Repair) :=
  ⟨⟨by decide, by decide, by decide⟩, by decide,
    valid_run_calls_engine_once env0 cliAllow ⟨by decide, by decide, by decide⟩
      (Or.inr (by decide))⟩

/-! ## Lemmas on the engine -/

theorem foldl_pick_mem {α : Type} (better : α → α → Bool) (xs : List α) (x : α) :
    xs.foldl (fun best y => if better y best then y else best) x ∈ x :: xs := by
  induction xs generalizing x with
  | nil => simp
  | cons y ys ih =>
    simp only [List.foldl_cons]
    have h := ih (if better y x = true then y else x)
    rcases List.mem_cons.1 h with h1 | h1
    · rw [h1]
      split
      · exact List.mem_cons_of_mem _ (List.mem_cons_self _ _)
      · exact List.mem_cons_self _ _
    · exact List.mem_cons_of_mem _ (List.mem_cons_of_mem _ h1)

/-- The selected candidate is one of the candidates. -/
theorem selectBest_mem {α : Type} (better : α → α → Bool) (l : List α) (x : α)
    (h : selectBest better l = some x) : x ∈ l := by
  cases l with
  | nil => cases h
  | cons y ys =>
    simp only [selectBest, Option.some.injEq] at h
    rw [← h]
    exact foldl_pick_mem better ys y

/-- A non-empty list of candidates has a selected one. -/
theorem selectBest_ne_none {α : Type} (better : α → α → Bool) (l : List α) (h : l ≠ []) :
    selectBest better l ≠ none := by
  cases l with
  | nil => exact absurd rfl h
  | cons y ys => simp [selectBest]

theorem RandomPartition_ok (rnd : Nat → Nat) (N K : Nat) (a : List Nat)
    (h : RandomPartition rnd N K = Except.ok a) :
    1 ≤ K ∧ K ≤ N ∧ a.length = N ∧ ∀ x ∈ a, x < K := by
  unfold RandomPartition at h
  split at h
  · cases h
  · rename_i hc
    simp only [Except.ok.injEq] at h
    have hK : 1 ≤ K ∧ K ≤ N := by omega
    refine ⟨hK.1, hK.2, ?_, ?_⟩
    · rw [← h]; simp
    · intro x hx
      rw [← h] at hx
      simp only [List.mem_map, List.mem_range] at hx
      obtain ⟨i, _, rfl⟩ := hx
      exact Nat.mod_lt _ (by omega)

theorem RandomPartition_error (rnd : Nat → Nat) (N K : Nat) (e : EngineError)
    (h : RandomPartition rnd N K = Except.error e) :
    e = EngineError.InvalidClusterCount ∧ (K < 1 ∨ N < K) := by
  unfold RandomPartition at h
  split at h
  · rename_i hc
    simp only [Except.error.injEq] at h
    exact ⟨h.symm, hc⟩
  · cases h

theorem recomputeCentroids_length (points : List Point) (a : List Nat) (centroids : List Point) :
    (recomputeCentroids points a centroids).length = centroids.length := by
  simp [recomputeCentroids]

theorem repairCluster_ok (points : List Point) (N k e : Nat) (st st1 : List Nat × List Point)
    (he : e < k) (hinv : EngineInv N k st)
    (h : repairCluster points st.1 st.2 e = Except.ok st1) : EngineInv N k st1 := by
  obtain ⟨hl, hr, hc⟩ := hinv
  unfold repairCluster at h
  split at h
  · cases h
  · split at h
    · cases h
    · split at h
      · cases h
      · simp only [Except.ok.injEq] at h
        rw [← h]
        refine ⟨by simp [hl], ?_, by simp [hc]⟩
        intro x hx
        rcases List.mem_or_eq_of_mem_set hx with hx1 | hx1
        · exact hr x hx1
        · rw [hx1]; exact he

theorem repairCluster_error (points : List Point) (a : List Nat) (centroids : List Point)
    (e : Nat) (err : EngineError)
    (h : repairCluster points a centroids e = Except.error err) :
    err = EngineError.RepairFailed := by
  unfold repairCluster at h
  split at h
  · simp only [Except.error.injEq] at h; exact h.symm
  · split at h
    · simp only [Except.error.injEq] at h; exact h.symm
    · split at h
      · simp only [Except.error.injEq] at h; exact h.symm
      · cases h

theorem handleEmptyClusters_ok (policy : EmptyClusterPolicy) (points : List Point) (N k : Nat)
    (cs : List Nat) (hcs : ∀ c ∈ cs, c < k) (st st1 : List Nat × List Point)
    (hinv : EngineInv N k st)
    (h : handleEmptyClusters policy points cs st = Except.ok st1) : EngineInv N k st1 := by
  induction cs generalizing st with
  | nil =>
    simp only [handleEmptyClusters, Except.ok.injEq] at h
    rw [← h]; exact hinv
  | cons c cs ih =>
    have hcs1 : ∀ c1 ∈ cs, c1 < k := fun c1 hc1 => hcs c1 (List.mem_cons_of_mem _ hc1)
    unfold handleEmptyClusters at h
    split at h
    · cases policy with
      | Reject => cases h
      | AllowEmptyClusters => exact ih hcs1 st hinv h
      | Repair =>
        simp only at h
        cases hrep : repairCluster points st.1 st.2 c with
        | error err => rw [hrep] at h; cases h
        | ok st2 =>
          rw [hrep] at h
          exact ih hcs1 st2 (repairCluster_ok points N k c st st2
            (hcs c (List.mem_cons_self _ _)) hinv hrep) h
    · exact ih hcs1 st hinv h

theorem handleEmptyClusters_error (policy : EmptyClusterPolicy) (points : List Point)
    (cs : List Nat) (st : List Nat × List Point) (err : EngineError)
    (h : handleEmptyClusters policy points cs st = Except.error err) :
    PolicyError policy err := by
  induction cs generalizing st with
  | nil => simp only [handleEmptyClusters] at h; cases h
  | cons c cs ih =>
    unfold handleEmptyClusters at h
    split at h
    · cases policy with
      | Reject =>
        simp only [Except.error.injEq] at h
        exact Or.inl ⟨h.symm, rfl⟩
      | AllowEmptyClusters => exact ih st h
      | Repair =>
        simp only at h
        cases hrep : repairCluster points st.1 st.2 c with
        | error err1 =>
          rw [hrep] at h
          simp only [Except.error.injEq] at h
          rw [← h]
          exact Or.inr ⟨repairCluster_error _ _ _ _ _ hrep, rfl⟩
        | ok st2 =>
          rw [hrep] at h
          exact ih st2 h
    · exact ih st h

theorem nearestCluster_lt (centroids : List Point) (p : Point) (h : 1 ≤ centroids.length) :
    nearestCluster centroids p < centroids.length := by
  unfold nearestCluster
  cases hs : selectBest (fun c best => decide (SquaredEuclideanDistance p (centroids.getD c [])
    < SquaredEuclideanDistance p (centroids.getD best []))) (List.range centroids.length) with
  | none => simpa using h
  | some c =>
    have := selectBest_mem _ _ _ hs
    simpa using this

theorem reassign_inv (points : List Point) (centroids : List Point)
    (h : 1 ≤ centroids.length) :
    EngineInv points.length centroids.length (points.map (nearestCluster centroids), centroids) := by
  refine ⟨by simp, ?_, rfl⟩
  intro x hx
  simp only [List.mem_map] at hx
  obtain ⟨p, _, rfl⟩ := hx
  exact nearestCluster_lt centroids p h

theorem LloydIterator_ok (policy : EmptyClusterPolicy) (points : List Point) (k n : Nat)
    (hk : 1 ≤ k) (st : List Nat × List Point) (hinv : EngineInv points.length k st)
    (s : LloydState) (a : List Nat) (centroids : List Point)
    (h : LloydIterator policy points n st = Except.ok (s, a, centroids)) :
    EngineInv points.length k (a, centroids) := by
  induction n generalizing st with
  | zero =>
    simp only [LloydIterator, Except.ok.injEq, Prod.mk.injEq] at h
    obtain ⟨_, h2⟩ := h
    rw [← h2]; exact hinv
  | succ n ih =>
    unfold LloydIterator at h
    cases hh : handleEmptyClusters policy points (List.range st.2.length)
        (st.1, recomputeCentroids points st.1 st.2) with
    | error err => rw [hh] at h; cases h
    | ok st1 =>
      rw [hh] at h
      simp only at h
      have hc : st.2.length = k := hinv.2.2
      have hinv0 : EngineInv points.length k (st.1, recomputeCentroids points st.1 st.2) :=
        ⟨hinv.1, hinv.2.1, by rw [recomputeCentroids_length]; exact hc⟩
      have hinv1 : EngineInv points.length k st1 :=
        handleEmptyClusters_ok policy points points.length k (List.range st.2.length)
          (fun c hcm => by rw [hc] at hcm; exact List.mem_range.1 hcm) _ st1 hinv0 hh
      have hlen1 : st1.2.length = k := hinv1.2.2
      have hre : EngineInv points.length k (points.map (nearestCluster st1.2), st1.2) := by
        have := reassign_inv points st1.2 (by omega)
        rwa [hlen1] at this
      split at h
      · simp only [Except.ok.injEq, Prod.mk.injEq] at h
        obtain ⟨_, h2, h3⟩ := h
        rw [← h2, ← h3]; exact hre
      · exact ih _ hre h

theorem LloydIterator_error (policy : EmptyClusterPolicy) (points : List Point) (n : Nat)
    (st : List Nat × List Point) (err : EngineError)
    (h : LloydIterator policy points n st = Except.error err) : PolicyError policy err := by
  induction n generalizing st with
  | zero => simp only [LloydIterator] at h; cases h
  | succ n ih =>
    unfold LloydIterator at h
    cases hh : handleEmptyClusters policy points (List.range st.2.length)
        (st.1, recomputeCentroids points st.1 st.2) with
    | error err1 =>
      rw [hh] at h
      simp only [Except.error.injEq] at h
      rw [← h]
      exact handleEmptyClusters_error _ _ _ _ _ hh
    | ok st1 =>
      rw [hh] at h
      simp only at h
      split at h
      · cases h
      · exact ih _ h

theorem mem_clusterPairs (k i j : Nat) (h : (i, j) ∈ clusterPairs k) : i < j ∧ j < k := by
  simp only [clusterPairs, List.mem_flatMap, List.mem_range, List.mem_map, List.mem_filter,
    decide_eq_true_eq, Prod.mk.injEq] at h
  obtain ⟨i1, _, j1, ⟨hj, hij⟩, rfl, rfl⟩ := h
  exact ⟨hij, hj⟩

theorem clusterPairs_ne_nil (k : Nat) (h : 2 ≤ k) : clusterPairs k ≠ [] := by
  have : (0, 1) ∈ clusterPairs k := by
    simp only [clusterPairs, List.mem_flatMap, List.mem_range, List.mem_map, List.mem_filter,
      decide_eq_true_eq, Prod.mk.injEq]
    exact ⟨0, by omega, 1, ⟨by omega, by omega⟩, rfl, rfl⟩
  intro h0
  rw [h0] at this
  cases this

theorem closestPair_some (centroids : List Point) (h : 2 ≤ centroids.length) :
    ∃ i j, closestPair centroids = some (i, j) ∧ i < j ∧ j < centroids.length := by
  cases hc : closestPair centroids with
  | none =>
    exact absurd hc (selectBest_ne_none _ _ (clusterPairs_ne_nil _ h))
  | some p =>
    obtain ⟨i, j⟩ := p
    exact ⟨i, j, rfl, mem_clusterPairs _ i j (selectBest_mem _ _ _ hc)⟩

theorem mergeClusters_inv (points : List Point) (N k i j : Nat) (st : List Nat × List Point)
    (hinv : EngineInv N k st) (hij : i < j) (hj : j < k) :
    EngineInv N (k - 1) (mergeClusters points st.1 st.2 i j) := by
  obtain ⟨hl, hr, hc⟩ := hinv
  refine ⟨by simp [mergeClusters, hl], ?_, ?_⟩
  · intro x hx
    simp only [mergeClusters, List.mem_map] at hx
    obtain ⟨c, hcm, rfl⟩ := hx
    have := hr c hcm
    split
    · omega
    · split <;> omega
  · simp only [mergeClusters]
    rw [List.length_eraseIdx]
    simp [hc, hj]

theorem OverclusterMerger_inv (points : List Point) (N K : Nat) (hK : 1 ≤ K) (merges : Nat)
    (k : Nat) (st : List Nat × List Point) (hinv : EngineInv N k st) (hle : K ≤ k)
    (hm : k - K ≤ merges) : EngineInv N K (OverclusterMerger points K merges st) := by
  induction merges generalizing k st with
  | zero =>
    have : k = K := by omega
    simp only [OverclusterMerger]
    rw [← this]; exact hinv
  | succ m ih =>
    unfold OverclusterMerger
    have hc : st.2.length = k := hinv.2.2
    split
    · have : k = K := by omega
      rw [← this]; exact hinv
    · obtain ⟨i, j, hp, hij, hj⟩ := closestPair_some st.2 (by omega)
      rw [hp]
      simp only
      rw [hc] at hj
      exact ih (k - 1) _ (mergeClusters_inv points N k i j st hinv hij hj) (by omega) (by omega)

theorem overclusterCount_ge (K : Nat) (f : ℚ) : K ≤ overclusterCount K f := by
  unfold overclusterCount
  split
  · exact le_refl _
  · exact le_max_left _ _

theorem initialCentroids_length (points : List Point) (k : Nat) :
    (initialCentroids points k).length = k := by
  simp [initialCentroids]

/-- What `Cluster` returns: a vector of one cluster index below `K` per point. -/
theorem Cluster_ok (policy : EmptyClusterPolicy) (rnd : Nat → Nat) (points : List Point)
    (K maxIterations : Int) (f : ℚ) (a : List Nat)
    (h : Cluster policy rnd points K maxIterations f = Except.ok a) :
    a.length = points.length ∧ ∀ x ∈ a, (x : Int) < K := by
  unfold Cluster at h
  split at h
  · cases h
  rename_i hvalid
  have hK : 1 ≤ K := by omega
  have hKn : 1 ≤ K.toNat := by omega
  split at h
  · cases h
  cases hp : RandomPartition rnd points.length (overclusterCount K.toNat f) with
  | error err => rw [hp] at h; cases h
  | ok a0 =>
    rw [hp] at h
    simp only at h
    obtain ⟨hk1, _, hl0, hr0⟩ := RandomPartition_ok _ _ _ _ hp
    cases hi : LloydIterator policy points maxIterations.toNat
        (a0, initialCentroids points (overclusterCount K.toNat f)) with
    | error err => rw [hi] at h; cases h
    | ok res =>
      obtain ⟨s, a1, cents⟩ := res
      rw [hi] at h
      simp only at h
      have hinv0 : EngineInv points.length (overclusterCount K.toNat f)
          (a0, initialCentroids points (overclusterCount K.toNat f)) :=
        ⟨hl0, hr0, initialCentroids_length _ _⟩
      have hinv1 := LloydIterator_ok policy points _ _ hk1 _ hinv0 s a1 cents hi
      have hfin : EngineInv points.length K.toNat (a, []) ∨
          (a.length = points.length ∧ ∀ x ∈ a, x < K.toNat) := by
        split at h
        · rename_i hf1
          simp only [Except.ok.injEq] at h
          right
          rw [← h]
          refine ⟨hinv1.1, fun x hx => ?_⟩
          have := hinv1.2.1 x hx
          simpa [overclusterCount, hf1] using this
        · simp only [Except.ok.injEq] at h
          right
          have hm := OverclusterMerger_inv points points.length K.toNat hKn
            (overclusterCount K.toNat f - K.toNat) (overclusterCount K.toNat f) (a1, cents)
            hinv1 (overclusterCount_ge _ _) (le_refl _)
          rw [← h]
          exact ⟨hm.1, hm.2.1⟩
      have hres : a.length = points.length ∧ ∀ x ∈ a, x < K.toNat := by
        rcases hfin with h1 | h1
        · exact ⟨h1.1, h1.2.1⟩
        · exact h1
      refine ⟨hres.1, fun x hx => ?_⟩
      have := hres.2 x hx
      omega

/-- Why `Cluster` fails on valid arguments: more clusters than points, an empty
cluster under `Reject`, or a repair that finds no point under `Repair`. -/
theorem Cluster_error (policy : EmptyClusterPolicy) (rnd : Nat → Nat) (points : List Point)
    (K maxIterations : Int) (f : ℚ) (hK : 1 ≤ K) (hmax : 0 ≤ maxIterations) (hf : 1 ≤ f)
    (err : EngineError) (h : Cluster policy rnd points K maxIterations f = Except.error err) :
    (err = EngineError.InvalidClusterCount ∧ points.length < overclusterCount K.toNat f) ∨
      PolicyError policy err := by
  unfold Cluster at h
  rw [if_neg (by
    intro hc
    rcases hc with hc | hc | hc
    · omega
    · omega
    · exact absurd hf (not_le.2 hc)), if_neg (by
    have := overclusterCount_ge K.toNat f
    omega)] at h
  cases hp : RandomPartition rnd points.length (overclusterCount K.toNat f) with
  | error err1 =>
    rw [hp] at h
    simp only [Except.error.injEq] at h
    obtain ⟨he, hc⟩ := RandomPartition_error _ _ _ _ hp
    left
    refine ⟨by rw [← h]; exact he, ?_⟩
    have := overclusterCount_ge K.toNat f
    omega
  | ok a0 =>
    rw [hp] at h
    simp only at h
    cases hi : LloydIterator policy points maxIterations.toNat
        (a0, initialCentroids points (overclusterCount K.toNat f)) with
    | error err1 =>
      rw [hi] at h
      simp only [Except.error.injEq] at h
      right
      rw [← h]
      exact LloydIterator_error _ _ _ _ _ hi
    | ok res =>
      rw [hi] at h
      simp only at h
      split at h <;> cases h

/-- Under `AllowEmptyClusters` the engine never fails because of an empty
cluster: its only errors are those of argument validation and partition. -/
theorem Cluster_allow_error (rnd : Nat → Nat) (points : List Point) (K maxIterations : Int)
    (f : ℚ) (err : EngineError)
    (h : Cluster EmptyClusterPolicy.AllowEmptyClusters rnd points K maxIterations f
      = Except.error err) :
    err ≠ EngineError.EmptyClusterError ∧ err ≠ EngineError.RepairFailed := by
  unfold Cluster at h
  split at h
  · simp only [Except.error.injEq] at h
    rw [← h]; exact ⟨by decide, by decide⟩
  split at h
  · simp only [Except.error.injEq] at h
    rw [← h]; exact ⟨by decide, by decide⟩
  cases hp : RandomPartition rnd points.length (overclusterCount K.toNat f) with
  | error err1 =>
    rw [hp] at h
    simp only [Except.error.injEq] at h
    obtain ⟨he, _⟩ := RandomPartition_error _ _ _ _ hp
    rw [← h, he]; exact ⟨by decide, by decide⟩
  | ok a0 =>
    rw [hp] at h
    simp only at h
    cases hi : LloydIterator EmptyClusterPolicy.AllowEmptyClusters points maxIterations.toNat
        (a0, initialCentroids points (overclusterCount K.toNat f)) with
    | error err1 =>
      rcases LloydIterator_error _ _ _ _ _ hi with ⟨_, hpol⟩ | ⟨_, hpol⟩ <;> cases hpol
    | ok res =>
      rw [hi] at h
      simp only at h
      split at h <;> cases h

/-! ## The claims on the policies and on the engine -/

/-- C4, refuted at `--allow_empty_clusters`: the run does not use the repair
policy, and the policy it gives the engine is `AllowEmptyClusters`, not the
rejecting one.  On two points that both start in cluster 0, the engine under the
selected policy returns the assignment `[0, 0]`, in which cluster 1 is empty,
where the rejecting policy fails with `EmptyClusterError`. -/
theorem allow_empty_clusters_is_not_reject :
    fatals (main env0 cliAllow) = [] ∧
    (clusterCalls (main env0 cliAllow)).map ClusterCall.policy
      = [EmptyClusterPolicy.AllowEmptyClusters] ∧
    selectedPolicy cliAllow ≠ EmptyClusterPolicy.Repair ∧
    selectedPolicy cliAllow ≠ EmptyClusterPolicy.Reject ∧
    Cluster (selectedPolicy cliAllow) rndZero linePoints 2 1000 1 = Except.ok [0, 0] ∧
    members linePoints [0, 0] 1 = [] ∧
    Cluster EmptyClusterPolicy.Reject rndZero linePoints 2 1000 1
      = Except.error EngineError.EmptyClusterError :=
  ⟨by decide, by decide, by decide, by decide, by with_unfolding_all rfl, by decide,
    by with_unfolding_all rfl⟩

/-- C4 (amended): the policy `main` gives the engine is one of exactly two,
the repair policy or `AllowEmptyClusters`; in every run where it is not the
repair policy, the flag `allow_empty_clusters` was given and the policy is
`AllowEmptyClusters`, under which the engine never fails a run because a cluster
became empty. -/
theorem non_default_policy_allows_empty_clusters (env : Env) (cli : CLI)
    (h : fatals (main env cli) = []) :
    ∃ call, clusterCalls (main env cli) = [call] ∧
      (call.policy = EmptyClusterPolicy.Repair ∨
        call.policy = EmptyClusterPolicy.AllowEmptyClusters) ∧
      (call.policy ≠ EmptyClusterPolicy.Repair →
        call.policy = EmptyClusterPolicy.AllowEmptyClusters ∧
        cli.HasParam "allow_empty_clusters" = true ∧
        ∀ (rnd : Nat → Nat) (points : List Point) (K maxIterations : Int) (f : ℚ)
          (err : EngineError),
          Cluster call.policy rnd points K maxIterations f = Except.error err →
            err ≠ EngineError.EmptyClusterError ∧ err ≠ EngineError.RepairFailed) := by
  obtain ⟨h1, h2, h3, h4⟩ := checks_of_no_fatal env cli h
  refine ⟨clusterCall env cli, ?_, ?_, ?_⟩
  · rw [main_eq_of_checks env cli h1 h2 h3 h4]
    simp [clusterCalls, clusterCalls_writeResults]
  · simp only [clusterCall, selectedPolicy]
    cases cli.HasParam "allow_empty_clusters" <;> simp
  · simp only [clusterCall, selectedPolicy]
    cases hflag : cli.HasParam "allow_empty_clusters"
    · simp
    · intro _
      refine ⟨by simp, rfl, ?_⟩
      intro rnd points K maxIterations f err herr
      exact Cluster_allow_error rnd points K maxIterations f err (by simpa using herr)

theorem non_default_policy_allows_empty_clusters_witness :
    fatals (main env0 cliAllow) = [] ∧
    ∃ call, clusterCalls (main env0 cliAllow) = [call] ∧
      (call.policy = EmptyClusterPolicy.Repair ∨
        call.policy = EmptyClusterPolicy.AllowEmptyClusters) ∧
      (call.policy ≠ EmptyClusterPolicy.Repair →
        call.policy = EmptyClusterPolicy.AllowEmptyClusters ∧
        cliAllow.HasParam "allow_empty_clusters" = true ∧
        ∀ (rnd : Nat → Nat) (points : List Point) (K maxIterations : Int) (f : ℚ)
          (err : EngineError),
          Cluster call.policy rnd points K maxIterations f = Except.error err →
            err ≠ EngineError.EmptyClusterError ∧ err ≠ EngineError.RepairFailed) :=
  ⟨by decide, non_default_policy_allows_empty_clusters env0 cliAllow (by decide)⟩

/-- C8: on valid arguments (`1 <= K`, `maxIterations >= 0`, factor `>= 1`), every
assignment vector `Cluster` returns has exactly one entry per point (length N)
and every entry is a cluster index in `[0, K)`, whether or not the iteration ran
at an inflated count and was merged down; and when `Cluster` returns no vector
it signals that there are more clusters than points, an empty cluster under the
rejecting policy, or a failed repair under the repair policy. -/
theorem Cluster_assignment_in_range (policy : EmptyClusterPolicy) (rnd : Nat → Nat)
    (points : List Point) (K maxIterations : Int) (f : ℚ)
    (hK : 1 ≤ K) (hmax : 0 ≤ maxIterations) (hf : 1 ≤ f) :
    (∀ a, Cluster policy rnd points K maxIterations f = Except.ok a →
      a.length = points.length ∧
      (∀ i, i < points.length → ∃ x, a[i]? = some x ∧ (x : Int) < K) ∧
      ∀ x ∈ a, (x : Int) < K) ∧
    (∀ err, Cluster policy rnd points K maxIterations f = Except.error err →
      (err = EngineError.InvalidClusterCount ∧ points.length < overclusterCount K.toNat f) ∨
      (err = EngineError.EmptyClusterError ∧ policy = EmptyClusterPolicy.Reject) ∨
      (err = EngineError.RepairFailed ∧ policy = EmptyClusterPolicy.Repair)) := by
  constructor
  · intro a ha
    obtain ⟨hl, hr⟩ := Cluster_ok policy rnd points K maxIterations f a ha
    refine ⟨hl, ?_, hr⟩
    intro i hi
    have hi1 : i < a.length := by rw [hl]; exact hi
    exact ⟨a[i], List.getElem?_eq_getElem hi1, hr _ (List.getElem_mem hi1)⟩
  · intro err herr
    exact Cluster_error policy rnd points K maxIterations f hK hmax hf err herr

theorem Cluster_assignment_in_range_witness :
    overclusterCount 2 2 = 4 ∧
    Cluster EmptyClusterPolicy.Repair rndCount fourPoints 2 1000 2 = Except.ok [0, 0, 1, 1] ∧
    [0, 0, 1, 1].length = fourPoints.length ∧
    (∀ i, i < fourPoints.length →
      ∃ x, ([0, 0, 1, 1] : List Nat)[i]? = some x ∧ (x : Int) < 2) ∧
    ∀ x ∈ ([0, 0, 1, 1] : List Nat), (x : Int) < 2 :=
  ⟨by with_unfolding_all decide, by with_unfolding_all rfl,
    (Cluster_assignment_in_range EmptyClusterPolicy.Repair rndCount fourPoints 2 1000 2
      (by decide) (by decide) (by norm_num)).1 [0, 0, 1, 1] (by with_unfolding_all rfl)⟩

end mlpack
